import Mathlib

/-!
Verification of the persistence and identity-assignment core of the product
registry service (`src/main.py`).

Modelling conventions (shallow embedding):

* The machine-readable log `productos.jsonl` is a text file read line by line.
  We model its content as `Option (List Line)`: `none` means the file is
  absent, and each `Line` records the observable outcome of reading one
  physical line — it strips to empty (`blank`), its bytes fail UTF-8 decoding
  so that iterating the file raises `UnicodeDecodeError` (`badEncoding`), it
  decodes but `json.loads` raises `JSONDecodeError` (`invalid`), or
  `json.loads` returns a JSON value (`parsed j`).  `json.dumps` followed by
  `json.loads` reproduces the same JSON value, so lines written by the
  program are modelled directly at the value level.
* JSON values are modelled by `JVal`.  Python floats carry no arithmetic in
  this program (they are only compared with 0 and serialized), and their
  `repr`/parse round trip is exact, so they are modelled as rationals.
* Fallible Python code is modelled with `Except PyErr`; an exception that a
  `try/except` swallows is modelled by the handler, one that escapes is the
  `.error` result of the modelled function.
* `datetime` objects are modelled by their calendar components; `isoformat`
  and `fromisoformat` are implemented on that representation (the canonical
  format emitted by `isoformat`, which is the only one this program writes).
-/

/-- Python exception classes that can escape or be caught in the core. -/
inductive PyErr where
  | attributeError
  | valueError
  | typeError
  | unicodeDecodeError
  | osError
  deriving DecidableEq, Repr

/-- JSON values as returned by `json.loads`. -/
inductive JVal where
  | null
  | bool (b : Bool)
  | int (n : Int)
  | float (q : Rat)
  | str (s : String)
  | arr (elems : List JVal)
  | obj (fields : List (String × JVal))

/-- Dictionary lookup; on duplicate keys the last binding wins, matching the
behaviour of `json.loads` on duplicate keys. -/
def jlookup : List (String × JVal) → String → Option JVal
  | [], _ => none
  | (k', v) :: t, k =>
    match jlookup t k with
    | some r => some r
    | none => if k' = k then some v else none

/-- Python `obj.get(k, default)`: only dictionaries have `.get`; on any other
value an `AttributeError` is raised. -/
def pyGet (j : JVal) (k : String) (dflt : JVal) : Except PyErr JVal :=
  match j with
  | .obj fs => .ok ((jlookup fs k).getD dflt)
  | _ => .error .attributeError

/-- Python `int()` truncates floats toward zero. -/
def pyTrunc (q : Rat) : Int := if q < 0 then -((-q).floor) else q.floor

/-- The ASCII whitespace characters `str.strip` removes. -/
def isSpaceC (c : Char) : Bool :=
  c = ' ' || c = '\t' || c = '\n' || c = '\r' || c = '\x0b' || c = '\x0c'

/-- Python `s.strip()`: drop leading and trailing whitespace. -/
def pyStrip (s : String) : String :=
  String.mk (((s.data.dropWhile isSpaceC).reverse.dropWhile isSpaceC).reverse)

/-- Value of an ASCII digit character. -/
def digVal (c : Char) : Option Nat :=
  if 48 ≤ c.toNat ∧ c.toNat ≤ 57 then some (c.toNat - 48) else none

def digitsToNatAux : List Char → Nat → Option Nat
  | [], acc => some acc
  | c :: t, acc =>
    match digVal c with
    | some d => digitsToNatAux t (10 * acc + d)
    | none => none

/-- Parse a nonempty all-digit character list. -/
def digitsToNat (l : List Char) : Option Nat :=
  match l with
  | [] => none
  | _ => digitsToNatAux l 0

/-- Python `int(s)` on a string: surrounding whitespace and one optional sign
are allowed around a nonempty digit run; anything else raises `ValueError`. -/
def pyStrToInt (s : String) : Except PyErr Int :=
  match (pyStrip s).data with
  | '-' :: ds =>
    match digitsToNat ds with
    | some n => .ok (-(n : Int))
    | none => .error .valueError
  | '+' :: ds =>
    match digitsToNat ds with
    | some n => .ok (n : Int)
    | none => .error .valueError
  | ds =>
    match digitsToNat ds with
    | some n => .ok (n : Int)
    | none => .error .valueError

/-- Python `int(x)` on a JSON value: ints pass through, bools become 0/1,
floats truncate, digit strings parse (else `ValueError`), and `None`, lists
and dicts raise `TypeError`. -/
def pyInt : JVal → Except PyErr Int
  | .int n => .ok n
  | .bool b => .ok (if b then 1 else 0)
  | .float q => .ok (pyTrunc q)
  | .str s => pyStrToInt s
  | .null => .error .typeError
  | .arr _ => .error .typeError
  | .obj _ => .error .typeError

/-- One physical line of `productos.jsonl`, as observed by the reader. -/
inductive Line where
  | blank
  | badEncoding
  | invalid
  | parsed (j : JVal)

/-- Whether iterating over this line raises `UnicodeDecodeError`. -/
def Line.isBad : Line → Bool
  | .badEncoding => true
  | _ => false

/-- Loop body of `_cargar_ultimo_id`: only `json.JSONDecodeError` is caught,
so an `AttributeError` from `.get` on a non-dict, or a `ValueError` or
`TypeError` from `int(...)`, escapes, as does a `UnicodeDecodeError` raised
by the file iteration itself. -/
def cargarGo : Int → List Line → Except PyErr Int
  | acc, [] => .ok acc
  | acc, .blank :: t => cargarGo acc t
  | _, .badEncoding :: _ => .error .unicodeDecodeError
  | acc, .invalid :: t => cargarGo acc t
  | acc, .parsed j :: t =>
    match pyGet j "id" (.int 0) with
    | .error e => .error e
    | .ok v =>
      match pyInt v with
      | .error e => .error e
      | .ok n => cargarGo (max acc n) t

/-- Model of `_cargar_ultimo_id` (`src/main.py:63-82`). -/
def cargarUltimoId : Option (List Line) → Except PyErr Int
  | none => .ok 0
  | some ls => cargarGo 0 ls

/-- Python `datetime` values, by calendar components (naive, as produced by
`datetime.utcnow()`). -/
structure PyDateTime where
  year : Nat
  month : Nat
  day : Nat
  hour : Nat
  minute : Nat
  second : Nat
  microsecond : Nat
  deriving DecidableEq, Repr

/-- Invariants the Python `datetime` constructor enforces on every datetime
object (in particular on everything `datetime.utcnow()` returns). -/
def wfDT (t : PyDateTime) : Bool :=
  decide (t.year < 10000) && decide (1 ≤ t.month) && decide (t.month ≤ 12) &&
  decide (1 ≤ t.day) && decide (t.day ≤ 31) && decide (t.hour < 24) &&
  decide (t.minute < 60) && decide (t.second < 60) &&
  decide (t.microsecond < 1000000)

/-- ASCII digit character for a value reduced mod 10. -/
def digitOf (d : Nat) : Char := Char.ofNat (48 + d)

def pad2 (n : Nat) : List Char := [digitOf (n / 10 % 10), digitOf (n % 10)]

def pad4 (n : Nat) : List Char :=
  [digitOf (n / 1000 % 10), digitOf (n / 100 % 10), digitOf (n / 10 % 10),
   digitOf (n % 10)]

def pad6 (n : Nat) : List Char :=
  [digitOf (n / 100000 % 10), digitOf (n / 10000 % 10),
   digitOf (n / 1000 % 10), digitOf (n / 100 % 10), digitOf (n / 10 % 10),
   digitOf (n % 10)]

/-- Characters of `datetime.isoformat()`: `YYYY-MM-DDTHH:MM:SS`, with
`.ffffff` appended exactly when the microsecond field is nonzero. -/
def isoChars (t : PyDateTime) : List Char :=
  pad4 t.year ++ '-' :: pad2 t.month ++ '-' :: pad2 t.day ++
  'T' :: pad2 t.hour ++ ':' :: pad2 t.minute ++ ':' :: pad2 t.second ++
  (if t.microsecond = 0 then [] else '.' :: pad6 t.microsecond)

def d2 (a b : Char) : Option Nat :=
  match digVal a, digVal b with
  | some x, some y => some (10 * x + y)
  | _, _ => none

def d4 (a b c d : Char) : Option Nat :=
  match digVal a, digVal b, digVal c, digVal d with
  | some x, some y, some z, some w => some (1000 * x + 100 * y + 10 * z + w)
  | _, _, _, _ => none

def d6 (a b c d e f : Char) : Option Nat :=
  match digVal a, digVal b, digVal c, digVal d, digVal e, digVal f with
  | some u, some v, some w, some x, some y, some z =>
    some (100000 * u + 10000 * v + 1000 * w + 100 * x + 10 * y + z)
  | _, _, _, _, _, _ => none

def mkDT (y mo d h mi s us : Option Nat) : Except PyErr PyDateTime :=
  match y, mo, d, h, mi, s, us with
  | some y, some mo, some d, some h, some mi, some s, some us =>
    .ok ⟨y, mo, d, h, mi, s, us⟩
  | _, _, _, _, _, _, _ => .error .valueError

/-- Model of `datetime.fromisoformat` on the formats this program writes
(`YYYY-MM-DD?HH:MM:SS` with optional `.ffffff`, any single separator
character, as accepted by Python 3.7-3.10); anything else raises
`ValueError`. -/
def fromIso : List Char → Except PyErr PyDateTime
  | [y1, y2, y3, y4, '-', m1, m2, '-', dd1, dd2, _, h1, h2, ':', i1, i2, ':',
     s1, s2] =>
    mkDT (d4 y1 y2 y3 y4) (d2 m1 m2) (d2 dd1 dd2) (d2 h1 h2) (d2 i1 i2)
      (d2 s1 s2) (some 0)
  | [y1, y2, y3, y4, '-', m1, m2, '-', dd1, dd2, _, h1, h2, ':', i1, i2, ':',
     s1, s2, '.', u1, u2, u3, u4, u5, u6] =>
    mkDT (d4 y1 y2 y3 y4) (d2 m1 m2) (d2 dd1 dd2) (d2 h1 h2) (d2 i1 i2)
      (d2 s1 s2) (d6 u1 u2 u3 u4 u5 u6)
  | _ => .error .valueError

/-- Caller-supplied fields of `ProductoIn` (`src/main.py:32-41`).  Python
floats are modelled as rationals (see the module comment). -/
structure ProductoIn where
  nombre : String
  categoria : Option String
  precio : Rat
  stock : Int
  descripcion : Option String
  deriving DecidableEq, Repr

/-- The pydantic validation rules of `ProductoIn`, which the HTTP boundary
enforces before the core is invoked: `nombre` is stripped with length 2-60,
`categoria` stripped with length at most 40, `precio` strictly positive,
`stock` nonnegative, `descripcion` of length at most 200. -/
def validIn (x : ProductoIn) : Bool :=
  (pyStrip x.nombre == x.nombre) && decide (2 ≤ x.nombre.length) &&
  decide (x.nombre.length ≤ 60) &&
  (match x.categoria with
   | none => true
   | some c => (pyStrip c == c) && decide (c.length ≤ 40)) &&
  decide (0 < x.precio) && decide (0 ≤ x.stock) &&
  (match x.descripcion with
   | none => true
   | some d => decide (d.length ≤ 200))

/-- A full record, `ProductoOut` (`src/main.py:43-48`): the caller-supplied
fields plus the server-assigned `id` and `creado_en`. -/
structure ProductoOut extends ProductoIn where
  id : Int
  creado_en : PyDateTime
  deriving DecidableEq, Repr

/-- The record built inside `crear_producto`: `ProductoOut(id=..., creado_en=...,
**data.model_dump())`. -/
def mkOut (inp : ProductoIn) (id : Int) (now : PyDateTime) : ProductoOut :=
  { toProductoIn := inp, id := id, creado_en := now }

def optStrJ : Option String → JVal
  | none => .null
  | some s => .str s

/-- The JSON object written for a record:
`json.dumps(p.model_dump(mode="json"))` followed by `json.loads` yields this
value (datetimes become their ISO string, `None` becomes `null`). -/
def dumpProduct (p : ProductoOut) : JVal :=
  .obj [("nombre", .str p.nombre),
        ("categoria", optStrJ p.categoria),
        ("precio", .float p.precio),
        ("stock", .int p.stock),
        ("descripcion", optStrJ p.descripcion),
        ("id", .int p.id),
        ("creado_en", .str (String.mk (isoChars p.creado_en)))]

def parseNombre (fs : List (String × JVal)) : Option String :=
  match jlookup fs "nombre" with
  | some (.str s) =>
    if 2 ≤ (pyStrip s).length ∧ (pyStrip s).length ≤ 60 then some (pyStrip s) else none
  | _ => none

def parseCategoria (fs : List (String × JVal)) : Option (Option String) :=
  match jlookup fs "categoria" with
  | none => some none
  | some .null => some none
  | some (.str s) => if (pyStrip s).length ≤ 40 then some (some (pyStrip s)) else none
  | _ => none

def parsePrecio (fs : List (String × JVal)) : Option Rat :=
  match jlookup fs "precio" with
  | some (.float q) => if 0 < q then some q else none
  | some (.int n) => if 0 < n then some ((n : Int) : Rat) else none
  | _ => none

def parseStock (fs : List (String × JVal)) : Option Int :=
  match jlookup fs "stock" with
  | none => some 0
  | some (.int n) => if 0 ≤ n then some n else none
  | _ => none

def parseDescripcion (fs : List (String × JVal)) : Option (Option String) :=
  match jlookup fs "descripcion" with
  | none => some none
  | some .null => some none
  | some (.str s) => if s.length ≤ 200 then some (some s) else none
  | _ => none

def parseId (fs : List (String × JVal)) : Option Int :=
  match jlookup fs "id" with
  | some (.int n) => some n
  | _ => none

def parseCreadoEn (fs : List (String × JVal)) : Option PyDateTime :=
  match jlookup fs "creado_en" with
  | some (.str s) => (fromIso s.data).toOption
  | _ => none

/-- Rebuilding a `ProductoOut` from one parsed JSON line, as the body of
`_leer_todos` does: the `creado_en` string is converted with
`datetime.fromisoformat`, then `ProductoOut(**d)` revalidates every field;
any exception this raises is caught by the enclosing `except Exception`,
which this `Option` models. -/
def parseLineOut (j : JVal) : Option ProductoOut :=
  match j with
  | .obj fs =>
    (parseCreadoEn fs).bind fun dt =>
    (parseId fs).bind fun id =>
    (parseNombre fs).bind fun nom =>
    (parseCategoria fs).bind fun cat =>
    (parsePrecio fs).bind fun pr =>
    (parseStock fs).bind fun st =>
    (parseDescripcion fs).bind fun des =>
    some ⟨⟨nom, cat, pr, st, des⟩, id, dt⟩
  | _ => none

/-- Loop of `_leer_todos` (`src/main.py:130-153`): every exception raised
inside the loop body is swallowed and the line skipped, but a
`UnicodeDecodeError` raised by the file iteration itself escapes. -/
def leerTodosGo : List ProductoOut → List Line → Except PyErr (List ProductoOut)
  | res, [] => .ok res
  | res, .blank :: t => leerTodosGo res t
  | _, .badEncoding :: _ => .error .unicodeDecodeError
  | res, .invalid :: t => leerTodosGo res t
  | res, .parsed j :: t =>
    match parseLineOut j with
    | some p => leerTodosGo (res ++ [p]) t
    | none => leerTodosGo res t

/-- Model of `_leer_todos` (`src/main.py:130-153`). -/
def leerTodos : Option (List Line) → Except PyErr (List ProductoOut)
  | none => .ok []
  | some ls => leerTodosGo [] ls

/-- Loop of `_leer_por_id` (`src/main.py:155-176`): the raw `id` field is
compared via `int(d.get("id", -1))` first, and only a matching line is fully
parsed; any exception inside the loop body is swallowed. -/
def leerPorIdGo (pid : Int) : List Line → Except PyErr (Option ProductoOut)
  | [] => .ok none
  | .blank :: t => leerPorIdGo pid t
  | .badEncoding :: _ => .error .unicodeDecodeError
  | .invalid :: t => leerPorIdGo pid t
  | .parsed j :: t =>
    match (pyGet j "id" (.int (-1))).toOption.bind fun v => (pyInt v).toOption with
    | none => leerPorIdGo pid t
    | some n =>
      if n = pid then
        match parseLineOut j with
        | some p => .ok (some p)
        | none => leerPorIdGo pid t
      else leerPorIdGo pid t

/-- Model of `_leer_por_id` (`src/main.py:155-176`). -/
def leerPorId (pid : Int) : Option (List Line) → Except PyErr (Option ProductoOut)
  | none => .ok none
  | some ls => leerPorIdGo pid ls

/-- Outcome of the `GET /productos/{id}` endpoint: the record, or the 404
"missing resource" response. -/
inductive ApiOut where
  | ok (p : ProductoOut)
  | notFound
  deriving DecidableEq, Repr

/-- Model of `obtener_producto` (`src/main.py:226-235`): delegates to
`_leer_por_id` and maps `None` to an HTTP 404. -/
def obtenerProducto (pid : Int) (j : Option (List Line)) : Except PyErr ApiOut :=
  match leerPorId pid j with
  | .error e => .error e
  | .ok none => .ok .notFound
  | .ok (some p) => .ok (.ok p)

/-- One character-for-character `str.replace`. -/
def replaceC (a b : Char) (l : List Char) : List Char :=
  l.map fun c => if c = a then b else c

/-- The `esc` helper of `_to_text_line` (`src/main.py:96-99`):
`str(s).replace("\n", " ").replace("|", "/")`. -/
def esc (s : String) : List Char := replaceC '|' '/' (replaceC '\n' ' ' s.data)

/-- `esc` applied to an optional field: `None` becomes the empty string. -/
def escOpt : Option String → List Char
  | none => []
  | some s => esc s

/-- Decimal digits of a natural number, fuel-based mirror of the digit loop
behind Python `str(int)`. -/
def natCharsCore : Nat → Nat → List Char → List Char
  | 0, _, acc => acc
  | fuel + 1, n, acc =>
    if n < 10 then digitOf (n % 10) :: acc
    else natCharsCore fuel (n / 10) (digitOf (n % 10) :: acc)

def natChars (n : Nat) : List Char := natCharsCore (n + 1) n []

/-- Characters of Python `str(i)` for an int. -/
def intRepr (i : Int) : List Char :=
  if i < 0 then '-' :: natChars i.natAbs else natChars i.natAbs

/-- Characters of Python `str(f)` for a float.  The exact decimal rendering
is immaterial to every claim (the text log is never read back); what matters
is that it consists of digits, a sign and a point, which this fraction
rendering shares with Python's shortest-repr rendering. -/
def floatRepr (q : Rat) : List Char := intRepr q.num ++ '.' :: natChars q.den

/-- The seven pipe-joined columns of a data row. -/
def rowFields (p : ProductoOut) : List (List Char) :=
  [intRepr p.id, esc p.nombre, escOpt p.categoria, floatRepr p.precio,
   intRepr p.stock, isoChars p.creado_en, escOpt p.descripcion]

/-- The data row of `_to_text_line` without its terminating newline. -/
def rowOf (p : ProductoOut) : List Char :=
  intRepr p.id ++ '|' :: esc p.nombre ++ '|' :: escOpt p.categoria ++
  '|' :: floatRepr p.precio ++ '|' :: intRepr p.stock ++
  '|' :: isoChars p.creado_en ++ '|' :: escOpt p.descripcion

/-- Model of `_to_text_line` (`src/main.py:91-101`). -/
def toTextLine (p : ProductoOut) : List Char := rowOf p ++ ['\n']

/-- The fixed header line written when `productos.txt` is created
(`src/main.py:59-61`). -/
def headerRow : List Char :=
  "id|nombre|categoria|precio|stock|creado_en|descripcion".data

def headerChars : List Char := headerRow ++ ['\n']

/-- Append one line to the machine-readable log; `open(..., "a")` creates
the file when absent. -/
def appendJsonl (f : Option (List Line)) (l : Line) : Option (List Line) :=
  some (f.getD [] ++ [l])

/-- Which of the two file appends of `_guardar_producto` succeed.  `ok` is
the failure-free run; `txtFail` aborts before anything is written;
`jsonlFail` fails after the text row was already written. -/
inductive WriteOutcome where
  | ok
  | txtFail
  | jsonlFail
  deriving DecidableEq, Repr

/-- Model of `_guardar_producto` (`src/main.py:103-128`): the text row is
written first, then the JSONL line; an `OSError` from either append
propagates.  A failing append is modelled as writing nothing (single-writer
atomic appends). -/
def guardarProducto (text : List Char) (jsonl : Option (List Line))
    (p : ProductoOut) (w : WriteOutcome) :
    List Char × Option (List Line) × Except PyErr Unit :=
  match w with
  | .ok => (text ++ toTextLine p, appendJsonl jsonl (.parsed (dumpProduct p)), .ok ())
  | .txtFail => (text, jsonl, .error .osError)
  | .jsonlFail => (text ++ toTextLine p, jsonl, .error .osError)

/-- The mutable state of the running service: the two log files and the
global `ultimo_id` counter. -/
structure AppState where
  jsonl : Option (List Line)
  text : List Char
  ultimoId : Int

/-- Model of `crear_producto` (`src/main.py:200-217`), as the body of the
critical section guarded by `lock`: increment the counter, build the record,
persist it.  When `_guardar_producto` raises, the exception propagates to
the caller and the counter stays incremented. -/
def crearProducto (s : AppState) (inp : ProductoIn) (now : PyDateTime)
    (w : WriteOutcome) : AppState × Except PyErr ProductoOut :=
  let newId := s.ultimoId + 1
  let p := mkOut inp newId now
  match guardarProducto s.text s.jsonl p w with
  | (text', jsonl', .ok _) => (⟨jsonl', text', newId⟩, .ok p)
  | (text', jsonl', .error e) => (⟨jsonl', text', newId⟩, .error e)

/-- A sequence of create requests executed one after the other (the lock
totally orders them); each carries its input, the clock value it observes
and the fate of its storage writes. -/
def runCreates (s : AppState) :
    List (ProductoIn × PyDateTime × WriteOutcome) →
    AppState × List (Except PyErr ProductoOut)
  | [] => (s, [])
  | (inp, now, w) :: rest =>
    let r := crearProducto s inp now w
    let rest' := runCreates r.1 rest
    (rest'.1, r.2 :: rest'.2)

/-- The counter value `ultimo_id` is seeded with at startup
(`src/main.py:85`); when `_cargar_ultimo_id` raises, the process fails to
start, so only the `.ok` branch is reachable in a running service. -/
def startId (j : Option (List Line)) : Int :=
  match cargarUltimoId j with
  | .ok n => n
  | .error _ => 0

/-- The startup state over a given machine-readable log: the storage
directory exists, the text file holds at least its header, and the counter
was recovered from the log. -/
def initState (j : Option (List Line)) : AppState := ⟨j, headerChars, startId j⟩

/-- Requests of a failure-free single-threaded run. -/
def allOk (reqs : List (ProductoIn × PyDateTime)) :
    List (ProductoIn × PyDateTime × WriteOutcome) :=
  reqs.map fun a => (a.1, a.2, WriteOutcome.ok)

/-- The records a failure-free run starting at counter value `c` builds. -/
def prodsFrom (c : Int) : List (ProductoIn × PyDateTime) → List ProductoOut
  | [] => []
  | (inp, now) :: rest => mkOut inp (c + 1) now :: prodsFrom (c + 1) rest

/-- Expected ids `c+1, c+2, ..., c+n`. -/
def intRange (c : Int) (n : Nat) : List Int :=
  (List.range n).map fun j : Nat => c + 1 + (j : Int)

/-- Appending lines one by one, as successive `open(..., "a")` writes do. -/
def appendLines (j : Option (List Line)) : List Line → Option (List Line)
  | [] => j
  | l :: t => appendLines (appendJsonl j l) t

/-- Split a character list on a separator, keeping empty segments (so a
trailing separator yields a trailing empty segment). -/
def splitOnC (sep : Char) : List Char → List (List Char)
  | [] => [[]]
  | c :: cs =>
    if c = sep then [] :: splitOnC sep cs
    else
      match splitOnC sep cs with
      | [] => [[c]]
      | h :: t => (c :: h) :: t

/-- A character that can appear inside a column of the text log without
corrupting its structure. -/
abbrev rowSafe (c : Char) : Prop := c ≠ '|' ∧ c ≠ '\n'

/-- The record one line contributes to a read, if any. -/
def lineRecord : Line → Option ProductoOut
  | .parsed j => parseLineOut j
  | _ => none

/-- The well-formed records of a log, in file order. -/
def recordsOf (ls : List Line) : List ProductoOut := ls.filterMap lineRecord

/-- Whether every physical line of the log decodes as UTF-8 text. -/
def decodable (ls : List Line) : Bool := ls.all fun l => !l.isBad

/-- Status of one in-flight `crear_producto` task: waiting to acquire the
lock, inside the critical section, or finished with its returned id. -/
inductive TStatus where
  | pending
  | hasLock
  | done (id : Int)
  deriving DecidableEq, Repr

def isLockT : TStatus → Bool
  | .hasLock => true
  | _ => false

def doneId : TStatus → Option Int
  | .done i => some i
  | _ => none

/-- Shared state seen by concurrent create tasks: the `ultimo_id` counter
and each task's status. -/
structure CState where
  counter : Int
  tasks : List TStatus
  deriving DecidableEq, Repr

/-- One scheduling step of the event loop running concurrent
`crear_producto` coroutines (`src/main.py:200-217`): `await lock.acquire()`
succeeds only while no task holds the lock; the critical section (increment,
build, both file writes, release at `async with` exit) contains no `await`,
so it runs as one atomic step that records `counter + 1` as the task's
result.  Failure-free runs only ("absent crashes"). -/
inductive CStep : CState → CState → Prop where
  | acquire (s : CState) (i : Nat) (h : s.tasks.get? i = some .pending)
      (hfree : (s.tasks.all fun t => !isLockT t) = true) :
      CStep s ⟨s.counter, s.tasks.set i .hasLock⟩
  | work (s : CState) (i : Nat) (h : s.tasks.get? i = some .hasLock) :
      CStep s ⟨s.counter + 1, s.tasks.set i (.done (s.counter + 1))⟩

/-- Any interleaving the scheduler can produce. -/
inductive CSteps : CState → CState → Prop where
  | refl (s : CState) : CSteps s s
  | tail {s t u : CState} : CSteps s t → CStep t u → CSteps s u

/-- The ids returned by the finished tasks. -/
def doneIds (s : CState) : List Int := s.tasks.filterMap doneId

def allDoneT (s : CState) : Bool := s.tasks.all fun t => (doneId t).isSome

/-- `n` create tasks issued simultaneously against counter value `k`. -/
def initC (n : Nat) (k : Int) : CState := ⟨k, List.replicate n .pending⟩

/-- The scheduling invariant: the counter counts finished tasks and the
finished ids are exactly `k+1, ..., k + #done`. -/
def CInv (k : Int) (n : Nat) (s : CState) : Prop :=
  s.tasks.length = n ∧ s.counter = k + (doneIds s).length ∧
  (doneIds s).Perm (intRange k (doneIds s).length)

theorem digVal_digitOf_mod (n : Nat) : digVal (digitOf (n % 10)) = some (n % 10) := by
  have h : n % 10 < 10 := Nat.mod_lt _ (by omega)
  interval_cases h : n % 10 <;> decide

theorem fromIso_isoChars (t : PyDateTime) (h : wfDT t = true) :
    fromIso (isoChars t) = .ok t := by
  obtain ⟨y, mo, d, hh, mi, s, us⟩ := t
  simp only [wfDT, Bool.and_eq_true, decide_eq_true_eq] at h
  by_cases hus : us = 0 <;>
    simp only [isoChars, pad4, pad2, pad6, hus, if_pos, if_neg, ite_true,
      ite_false, List.cons_append, List.nil_append, fromIso, d2, d4, d6,
      digVal_digitOf_mod, mkDT] <;>
    · simp only [Except.ok.injEq, PyDateTime.mk.injEq]
      refine ⟨?_, ?_, ?_, ?_, ?_, ?_, ?_⟩ <;> first | trivial | omega

theorem appendLines_ne_nil (ls : List Line) (hne : ls ≠ []) :
    ∀ j, appendLines j ls = some (j.getD [] ++ ls) := by
  induction ls with
  | nil => exact absurd rfl hne
  | cons l t ih =>
    intro j
    by_cases ht : t = []
    · subst ht; simp [appendLines, appendJsonl]
    · rw [appendLines, ih ht]
      simp [appendJsonl]

theorem intRange_succ (c : Int) (n : Nat) :
    intRange c (n + 1) = (c + 1) :: intRange (c + 1) n := by
  rw [intRange, List.range_succ_eq_map, List.map_cons, List.map_map]
  congr 1
  · simp
  · rw [intRange]
    apply List.map_congr_left
    intro a _
    simp only [Function.comp_apply]
    push_cast
    ring

theorem intRange_nodup (c : Int) (n : Nat) : (intRange c n).Nodup := by
  rw [intRange]
  apply List.Nodup.map
  · intro a b h
    have h' : c + 1 + (a : Int) = c + 1 + (b : Int) := h
    omega
  · exact List.nodup_range n

/-- A failure-free run of `N` creates appends exactly the built records to
both logs, returns them in order, and advances the counter by `N`. -/
theorem runCreates_allOk (reqs : List (ProductoIn × PyDateTime)) :
    ∀ s : AppState,
      runCreates s (allOk reqs) =
        (⟨appendLines s.jsonl
            ((prodsFrom s.ultimoId reqs).map fun p => Line.parsed (dumpProduct p)),
          s.text ++ ((prodsFrom s.ultimoId reqs).map toTextLine).flatten,
          s.ultimoId + reqs.length⟩,
         (prodsFrom s.ultimoId reqs).map Except.ok) := by
  induction reqs with
  | nil => intro s; simp [runCreates, allOk, prodsFrom, appendLines]
  | cons a rest ih =>
    intro s
    obtain ⟨inp, now⟩ := a
    simp only [allOk, List.map_cons, runCreates, crearProducto, guardarProducto,
      prodsFrom, List.length_cons]
    rw [show (allOk rest = rest.map fun a => (a.1, a.2, WriteOutcome.ok)) from rfl] at ih
    rw [ih]
    simp [appendLines, List.append_assoc, Prod.mk.injEq, AppState.mk.injEq]
    try omega

theorem prodsFrom_ids (reqs : List (ProductoIn × PyDateTime)) :
    ∀ c : Int, (prodsFrom c reqs).map (fun p => p.id) = intRange c reqs.length := by
  induction reqs with
  | nil => intro c; simp [prodsFrom, intRange]
  | cons a rest ih =>
    intro c
    obtain ⟨inp, now⟩ := a
    simp only [prodsFrom, List.map_cons, List.length_cons, intRange_succ, ih]
    rfl

/-- C1: from an absent or empty machine-readable log, `N` sequential
successful creates return exactly the records built with ids `1, 2, ..., N`
in order (`intRange 0 N`), with no duplicate and no gap. -/
theorem c1_sequential_creates_yield_ids_one_to_n
    (reqs : List (ProductoIn × PyDateTime)) :
    (runCreates (initState none) (allOk reqs)).2 =
      (prodsFrom 0 reqs).map Except.ok ∧
    (runCreates (initState (some [])) (allOk reqs)).2 =
      (prodsFrom 0 reqs).map Except.ok ∧
    (prodsFrom 0 reqs).map (fun p => p.id) = intRange 0 reqs.length ∧
    ((prodsFrom 0 reqs).map (fun p => p.id)).Nodup := by
  have h0 : (initState none).ultimoId = 0 := rfl
  have h1 : (initState (some [])).ultimoId = 0 := rfl
  refine ⟨?_, ?_, ?_, ?_⟩
  · rw [runCreates_allOk]; rw [h0]
  · rw [runCreates_allOk]; rw [h1]
  · exact prodsFrom_ids reqs 0
  · rw [prodsFrom_ids reqs 0]; exact intRange_nodup 0 reqs.length

theorem prodsFrom_length (reqs : List (ProductoIn × PyDateTime)) :
    ∀ c, (prodsFrom c reqs).length = reqs.length := by
  induction reqs with
  | nil => intro c; rfl
  | cons a rest ih =>
    intro c
    obtain ⟨inp, now⟩ := a
    simp [prodsFrom, ih]

/-- Looking up `"id"` in a dumped record always yields its integer id. -/
theorem pyGet_dump_id (p : ProductoOut) (d : JVal) :
    pyGet (dumpProduct p) "id" d = .ok (.int p.id) := rfl

/-- The recovery scan over the lines a failure-free run wrote starting at
counter `c` folds `max` over the ids `c+1, ..., c+N`. -/
theorem cargarGo_prods (reqs : List (ProductoIn × PyDateTime)) :
    ∀ c acc : Int, c ≤ acc →
      cargarGo acc ((prodsFrom c reqs).map fun p => Line.parsed (dumpProduct p)) =
        .ok (max acc (c + reqs.length)) := by
  induction reqs with
  | nil =>
    intro c acc h
    simp only [prodsFrom, List.map_nil, cargarGo, List.length_nil,
      Nat.cast_zero, add_zero, Except.ok.injEq]
    omega
  | cons a rest ih =>
    intro c acc h
    obtain ⟨inp, now⟩ := a
    simp only [prodsFrom, List.map_cons, cargarGo, pyGet_dump_id, pyInt,
      List.length_cons]
    rw [show (mkOut inp (c + 1) now).id = c + 1 from rfl]
    rw [ih (c + 1) (max acc (c + 1)) (le_max_right _ _)]
    simp only [Except.ok.injEq]
    push_cast
    omega

/-- C6: after `K` successful creates from an absent log, re-running the
startup scan over the produced machine-readable log recovers counter `K`,
and a create on the freshly instantiated state returns id `K + 1`. -/
theorem c6_restart_recovers_counter (reqs : List (ProductoIn × PyDateTime))
    (inp : ProductoIn) (now : PyDateTime) :
    cargarUltimoId ((runCreates (initState none) (allOk reqs)).1.jsonl) =
      .ok reqs.length ∧
    (crearProducto
        (initState ((runCreates (initState none) (allOk reqs)).1.jsonl))
        inp now .ok).2 =
      .ok (mkOut inp ((reqs.length : Int) + 1) now) := by
  have hj : (runCreates (initState none) (allOk reqs)).1.jsonl =
      appendLines none ((prodsFrom 0 reqs).map fun p => Line.parsed (dumpProduct p)) := by
    rw [runCreates_allOk]
    rfl
  have hcargar : cargarUltimoId ((runCreates (initState none) (allOk reqs)).1.jsonl) =
      .ok reqs.length := by
    rw [hj]
    by_cases hreqs : reqs = []
    · subst hreqs; rfl
    · have hne : ((prodsFrom 0 reqs).map fun p => Line.parsed (dumpProduct p)) ≠ [] := by
        intro hcontra
        apply hreqs
        have hlen := congrArg List.length hcontra
        simp only [List.length_map, prodsFrom_length, List.length_nil] at hlen
        exact List.length_eq_zero.mp hlen
      rw [appendLines_ne_nil _ hne]
      simp only [Option.getD_none, List.nil_append, cargarUltimoId]
      rw [cargarGo_prods reqs 0 0 le_rfl]
      simp only [zero_add, Except.ok.injEq]
      omega
  refine ⟨hcargar, ?_⟩
  have hstart : startId ((runCreates (initState none) (allOk reqs)).1.jsonl) =
      (reqs.length : Int) := by
    rw [startId, hcargar]
  simp only [crearProducto, guardarProducto, initState, mkOut]
  rw [show startId (runCreates ⟨none, headerChars, startId none⟩ (allOk reqs)).1.jsonl =
        (reqs.length : Int) from hstart]

/-- C2 (code bug): `_cargar_ultimo_id` catches only `json.JSONDecodeError`,
so a line that is valid JSON but not an object raises `AttributeError` from
`.get`, and an object whose `id` does not convert to `int` raises
`ValueError` — contradicting the claimed skip-all leniency.  Lines that fail
JSON decoding are indeed skipped (third conjunct). -/
theorem c2_recover_raises_on_nonobject_or_bad_id :
    cargarUltimoId (some [Line.parsed (JVal.arr [JVal.int 1, JVal.int 2])]) =
      .error .attributeError ∧
    cargarUltimoId (some [Line.parsed (JVal.obj [("id", JVal.str "abc")])]) =
      .error .valueError ∧
    cargarUltimoId
        (some [Line.blank, Line.invalid, Line.parsed (JVal.obj [("id", JVal.int 7)])]) =
      .ok 7 :=
  ⟨rfl, rfl, rfl⟩

/-- C3 (code bug): the `except Exception` of `_leer_todos` wraps only the
loop body, not the file iteration, so a line whose bytes are not valid UTF-8
raises `UnicodeDecodeError` out of `list()` instead of being skipped — even
though a perfectly well-formed record (second conjunct) sits in the same
log. -/
theorem c3_read_all_raises_on_undecodable_line :
    leerTodos
        (some [Line.parsed (JVal.obj
            [("nombre", JVal.str "Teclado"), ("categoria", JVal.null),
             ("precio", JVal.float 5), ("stock", JVal.int 0),
             ("descripcion", JVal.null), ("id", JVal.int 1),
             ("creado_en", JVal.str "2024-01-02T03:04:05")]),
          Line.badEncoding]) = .error .unicodeDecodeError ∧
    parseLineOut (JVal.obj
            [("nombre", JVal.str "Teclado"), ("categoria", JVal.null),
             ("precio", JVal.float 5), ("stock", JVal.int 0),
             ("descripcion", JVal.null), ("id", JVal.int 1),
             ("creado_en", JVal.str "2024-01-02T03:04:05")]) =
      some ⟨⟨"Teclado", none, 5, 0, none⟩, 1, ⟨2024, 1, 2, 3, 4, 5, 0⟩⟩ :=
  ⟨rfl, by decide⟩

theorem splitOnC_ne_nil (sep : Char) : ∀ l, splitOnC sep l ≠ [] := by
  intro l
  induction l with
  | nil => simp [splitOnC]
  | cons c cs ih =>
    by_cases hc : c = sep
    · simp [splitOnC, hc]
    · simp only [splitOnC, if_neg hc]
      cases hsp : splitOnC sep cs with
      | nil => simp
      | cons h t => simp

theorem splitOnC_no_sep (sep : Char) :
    ∀ l : List Char, (∀ c ∈ l, c ≠ sep) → splitOnC sep l = [l] := by
  intro l
  induction l with
  | nil => intro _; rfl
  | cons c cs ih =>
    intro h
    have hc : c ≠ sep := h c (List.mem_cons_self c cs)
    have hcs := ih fun x hx => h x (List.mem_cons_of_mem c hx)
    simp [splitOnC, if_neg hc, hcs]

theorem splitOnC_append_sep (sep : Char) :
    ∀ (l rest : List Char), (∀ c ∈ l, c ≠ sep) →
      splitOnC sep (l ++ sep :: rest) = l :: splitOnC sep rest := by
  intro l
  induction l with
  | nil => intro rest _; simp [splitOnC]
  | cons c cs ih =>
    intro rest h
    have hc : c ≠ sep := h c (List.mem_cons_self c cs)
    have hcs := ih rest fun x hx => h x (List.mem_cons_of_mem c hx)
    simp only [List.cons_append, splitOnC, if_neg hc, List.append_eq]
    rw [hcs]

theorem esc_rowSafe (s : String) : ∀ c ∈ esc s, rowSafe c := by
  intro c hc
  simp only [esc, replaceC, List.mem_map] at hc
  obtain ⟨b, hb, rfl⟩ := hc
  obtain ⟨a, _, rfl⟩ := hb
  constructor <;> split <;> first | decide | (split <;> first | decide | assumption)

theorem escOpt_rowSafe (o : Option String) : ∀ c ∈ escOpt o, rowSafe c := by
  cases o with
  | none => intro c hc; cases hc
  | some s => exact esc_rowSafe s

theorem digitOf_rowSafe (n : Nat) : rowSafe (digitOf (n % 10)) := by
  have h : n % 10 < 10 := Nat.mod_lt _ (by omega)
  interval_cases h : n % 10 <;> decide

theorem natCharsCore_rowSafe :
    ∀ (fuel n : Nat) (acc : List Char), (∀ c ∈ acc, rowSafe c) →
      ∀ c ∈ natCharsCore fuel n acc, rowSafe c := by
  intro fuel
  induction fuel with
  | zero => intro n acc hacc; exact hacc
  | succ fuel ih =>
    intro n acc hacc c hc
    simp only [natCharsCore] at hc
    split at hc
    · rcases List.mem_cons.mp hc with h | h
      · exact h ▸ digitOf_rowSafe n
      · exact hacc c h
    · refine ih (n / 10) _ ?_ c hc
      intro x hx
      rcases List.mem_cons.mp hx with h | h
      · exact h ▸ digitOf_rowSafe n
      · exact hacc x h

theorem natChars_rowSafe (n : Nat) : ∀ c ∈ natChars n, rowSafe c :=
  natCharsCore_rowSafe (n + 1) n [] (by intro c hc; cases hc)

theorem intRepr_rowSafe (i : Int) : ∀ c ∈ intRepr i, rowSafe c := by
  intro c hc
  simp only [intRepr] at hc
  split at hc
  · rcases List.mem_cons.mp hc with h | h
    · exact h ▸ by decide
    · exact natChars_rowSafe _ c h
  · exact natChars_rowSafe _ c hc

theorem floatRepr_rowSafe (q : Rat) : ∀ c ∈ floatRepr q, rowSafe c := by
  intro c hc
  simp only [floatRepr, List.mem_append, List.mem_cons] at hc
  rcases hc with h | h | h
  · exact intRepr_rowSafe _ c h
  · exact h ▸ by decide
  · exact natChars_rowSafe _ c h

theorem cons_rowSafe {c0 : Char} {l : List Char} (h0 : rowSafe c0)
    (h : ∀ c ∈ l, rowSafe c) : ∀ c ∈ c0 :: l, rowSafe c := by
  intro c hc
  rcases List.mem_cons.mp hc with h' | h'
  · exact h' ▸ h0
  · exact h c h'

theorem append_rowSafe {l1 l2 : List Char} (h1 : ∀ c ∈ l1, rowSafe c)
    (h2 : ∀ c ∈ l2, rowSafe c) : ∀ c ∈ l1 ++ l2, rowSafe c := by
  intro c hc
  rcases List.mem_append.mp hc with h' | h'
  · exact h1 c h'
  · exact h2 c h'

theorem pad2_rowSafe (n : Nat) : ∀ c ∈ pad2 n, rowSafe c := by
  intro c hc
  rcases List.mem_cons.mp hc with h | h
  · exact h ▸ digitOf_rowSafe _
  · rcases List.mem_cons.mp h with h' | h'
    · exact h' ▸ digitOf_rowSafe _
    · cases h'

theorem pad4_rowSafe (n : Nat) : ∀ c ∈ pad4 n, rowSafe c := by
  intro c hc
  simp only [pad4, List.mem_cons, List.not_mem_nil, or_false] at hc
  rcases hc with h | h | h | h <;> exact h ▸ digitOf_rowSafe _

theorem pad6_rowSafe (n : Nat) : ∀ c ∈ pad6 n, rowSafe c := by
  intro c hc
  simp only [pad6, List.mem_cons, List.not_mem_nil, or_false] at hc
  rcases hc with h | h | h | h | h | h <;> exact h ▸ digitOf_rowSafe _

theorem isoChars_rowSafe (t : PyDateTime) : ∀ c ∈ isoChars t, rowSafe c := by
  have hif : ∀ c ∈ (if t.microsecond = 0 then ([] : List Char)
      else '.' :: pad6 t.microsecond), rowSafe c := by
    split
    · intro c hc; cases hc
    · exact cons_rowSafe (by decide) (pad6_rowSafe _)
  have h1 : ∀ c ∈ '-' :: pad2 t.month, rowSafe c :=
    cons_rowSafe (by decide) (pad2_rowSafe _)
  have h2 : ∀ c ∈ '-' :: pad2 t.day, rowSafe c :=
    cons_rowSafe (by decide) (pad2_rowSafe _)
  have h3 : ∀ c ∈ 'T' :: pad2 t.hour, rowSafe c :=
    cons_rowSafe (by decide) (pad2_rowSafe _)
  have h4 : ∀ c ∈ ':' :: pad2 t.minute, rowSafe c :=
    cons_rowSafe (by decide) (pad2_rowSafe _)
  have h5 : ∀ c ∈ ':' :: pad2 t.second, rowSafe c :=
    cons_rowSafe (by decide) (pad2_rowSafe _)
  exact append_rowSafe (append_rowSafe (append_rowSafe (append_rowSafe
    (append_rowSafe (append_rowSafe (pad4_rowSafe _) h1) h2) h3) h4) h5) hif

theorem forall_mem_cons_of {P : Char → Prop} {c0 : Char} {l : List Char}
    (h0 : P c0) (h : ∀ c ∈ l, P c) : ∀ c ∈ c0 :: l, P c := by
  intro c hc
  rcases List.mem_cons.mp hc with h' | h'
  · exact h' ▸ h0
  · exact h c h'

theorem forall_mem_append_of {P : Char → Prop} {l1 l2 : List Char}
    (h1 : ∀ c ∈ l1, P c) (h2 : ∀ c ∈ l2, P c) : ∀ c ∈ l1 ++ l2, P c := by
  intro c hc
  rcases List.mem_append.mp hc with h' | h'
  · exact h1 c h'
  · exact h2 c h'

theorem rowOf_noNl (p : ProductoOut) : ∀ c ∈ rowOf p, c ≠ '\n' := by
  have w : ∀ (l : List Char), (∀ c ∈ l, rowSafe c) → ∀ c ∈ l, c ≠ '\n' :=
    fun l h c hc => (h c hc).2
  refine forall_mem_append_of (forall_mem_append_of (forall_mem_append_of
    (forall_mem_append_of (forall_mem_append_of (forall_mem_append_of
      (w _ (intRepr_rowSafe p.id)) ?_) ?_) ?_) ?_) ?_) ?_
  · exact forall_mem_cons_of (by decide) (w _ (esc_rowSafe p.nombre))
  · exact forall_mem_cons_of (by decide) (w _ (escOpt_rowSafe p.categoria))
  · exact forall_mem_cons_of (by decide) (w _ (floatRepr_rowSafe p.precio))
  · exact forall_mem_cons_of (by decide) (w _ (intRepr_rowSafe p.stock))
  · exact forall_mem_cons_of (by decide) (w _ (isoChars_rowSafe p.creado_en))
  · exact forall_mem_cons_of (by decide) (w _ (escOpt_rowSafe p.descripcion))

theorem headerRow_noNl : ∀ c ∈ headerRow, c ≠ '\n' := by decide

/-- Splitting the concatenation of newline-terminated rows recovers the rows
(plus the empty segment after the final newline). -/
theorem splitRows (ps : List ProductoOut) :
    splitOnC '\n' ((ps.map toTextLine).flatten) = ps.map rowOf ++ [[]] := by
  induction ps with
  | nil => rfl
  | cons p t ih =>
    simp only [List.map_cons, List.flatten_cons, toTextLine, List.append_assoc,
      List.singleton_append]
    rw [splitOnC_append_sep '\n' (rowOf p) _ (rowOf_noNl p), ih]
    rfl

theorem splitOnC_pipe_row (p : ProductoOut) : splitOnC '|' (rowOf p) = rowFields p := by
  have h0 : ∀ c ∈ intRepr p.id, c ≠ '|' := fun c hc => (intRepr_rowSafe _ c hc).1
  have h1 : ∀ c ∈ esc p.nombre, c ≠ '|' := fun c hc => (esc_rowSafe _ c hc).1
  have h2 : ∀ c ∈ escOpt p.categoria, c ≠ '|' := fun c hc => (escOpt_rowSafe _ c hc).1
  have h3 : ∀ c ∈ floatRepr p.precio, c ≠ '|' := fun c hc => (floatRepr_rowSafe _ c hc).1
  have h4 : ∀ c ∈ intRepr p.stock, c ≠ '|' := fun c hc => (intRepr_rowSafe _ c hc).1
  have h5 : ∀ c ∈ isoChars p.creado_en, c ≠ '|' := fun c hc => (isoChars_rowSafe _ c hc).1
  have h6 : ∀ c ∈ escOpt p.descripcion, c ≠ '|' := fun c hc => (escOpt_rowSafe _ c hc).1
  simp only [rowOf, List.append_assoc, List.cons_append]
  rw [splitOnC_append_sep '|' _ _ h0, splitOnC_append_sep '|' _ _ h1,
    splitOnC_append_sep '|' _ _ h2, splitOnC_append_sep '|' _ _ h3,
    splitOnC_append_sep '|' _ _ h4, splitOnC_append_sep '|' _ _ h5,
    splitOnC_no_sep '|' _ h6]
  rfl

/-- C4: pipes and newlines inside string fields are substituted by the
escaping of `_to_text_line`, so the text log of any failure-free run splits
on newlines into exactly the header (line 1) followed by one row per record
and nothing else, and every data row splits on the delimiter into exactly
its 7 columns. -/
theorem c4_text_log_rows_and_columns (reqs : List (ProductoIn × PyDateTime)) :
    splitOnC '\n' ((runCreates (initState none) (allOk reqs)).1.text) =
      (headerRow :: (prodsFrom 0 reqs).map rowOf) ++ [[]] ∧
    (splitOnC '\n' ((runCreates (initState none) (allOk reqs)).1.text)).length =
      reqs.length + 2 ∧
    ∀ p : ProductoOut, splitOnC '|' (rowOf p) = rowFields p ∧
      (rowFields p).length = 7 := by
  have htext : (runCreates (initState none) (allOk reqs)).1.text =
      headerChars ++ ((prodsFrom 0 reqs).map toTextLine).flatten := by
    rw [runCreates_allOk]
    rfl
  have hsplit : splitOnC '\n' ((runCreates (initState none) (allOk reqs)).1.text) =
      (headerRow :: (prodsFrom 0 reqs).map rowOf) ++ [[]] := by
    rw [htext]
    rw [show headerChars = headerRow ++ ['\n'] from rfl]
    rw [List.append_assoc, List.singleton_append]
    rw [splitOnC_append_sep '\n' headerRow _ headerRow_noNl]
    rw [splitRows]
    rfl
  refine ⟨hsplit, ?_, ?_⟩
  · rw [hsplit]
    simp only [List.length_append, List.length_cons, List.length_map,
      prodsFrom_length, List.length_nil]
  · intro p
    exact ⟨splitOnC_pipe_row p, rfl⟩

theorem leerTodosGo_eq (ls : List Line) :
    ∀ acc, decodable ls = true → leerTodosGo acc ls = .ok (acc ++ recordsOf ls) := by
  induction ls with
  | nil => intro acc _; simp [leerTodosGo, recordsOf]
  | cons l t ih =>
    intro acc h
    simp only [decodable, List.all_cons, Bool.and_eq_true] at h
    have ht : decodable t = true := h.2
    cases l with
    | blank => simpa [leerTodosGo, recordsOf, lineRecord] using ih acc ht
    | badEncoding => simp [Line.isBad] at h
    | invalid => simpa [leerTodosGo, recordsOf, lineRecord] using ih acc ht
    | parsed j =>
      cases hp : parseLineOut j with
      | none =>
        simp only [leerTodosGo, hp]
        simpa [recordsOf, lineRecord, hp] using ih acc ht
      | some p =>
        simp only [leerTodosGo, hp]
        rw [ih (acc ++ [p]) ht]
        simp [recordsOf, lineRecord, hp]

/-- With every line decodable, `_leer_todos` returns exactly the well-formed
records in file order, never an error. -/
theorem leerTodos_eq (ls : List Line) (h : decodable ls = true) :
    leerTodos (some ls) = .ok (recordsOf ls) := by
  simpa using leerTodosGo_eq ls [] h

/-- If a line fully parses to record `p`, then the raw id probe of
`_leer_por_id` (`int(d.get("id", -1))`) succeeds and yields exactly
`p.id`. -/
theorem parse_id_raw {j : JVal} {p : ProductoOut} (hp : parseLineOut j = some p) :
    pyGet j "id" (.int (-1)) = .ok (.int p.id) := by
  cases j with
  | obj fs =>
    simp only [parseLineOut, Option.bind_eq_some, Option.some.injEq] at hp
    obtain ⟨dt, hdt, id, hid, nom, hnom, cat, hcat, pr, hpr, st, hst, des, hdes, hp⟩ := hp
    subst hp
    cases hlook : jlookup fs "id" with
    | none => simp [parseId, hlook] at hid
    | some v =>
      cases v with
      | int n =>
        simp only [parseId, hlook, Option.some.injEq] at hid
        subst hid
        simp [pyGet, hlook]
      | null => simp [parseId, hlook] at hid
      | bool b => simp [parseId, hlook] at hid
      | float q => simp [parseId, hlook] at hid
      | str s2 => simp [parseId, hlook] at hid
      | arr es => simp [parseId, hlook] at hid
      | obj fs2 => simp [parseId, hlook] at hid
  | null => simp [parseLineOut] at hp
  | bool b => simp [parseLineOut] at hp
  | int n => simp [parseLineOut] at hp
  | float q => simp [parseLineOut] at hp
  | str s2 => simp [parseLineOut] at hp
  | arr es => simp [parseLineOut] at hp

theorem leerPorIdGo_eq (pid : Int) (ls : List Line) (h : decodable ls = true) :
    leerPorIdGo pid ls = .ok ((recordsOf ls).find? fun p => p.id == pid) := by
  induction ls with
  | nil => rfl
  | cons l t ih =>
    simp only [decodable, List.all_cons, Bool.and_eq_true] at h
    have ht : decodable t = true := h.2
    cases l with
    | blank => simpa [leerPorIdGo, recordsOf, lineRecord] using ih ht
    | badEncoding => simp [Line.isBad] at h
    | invalid => simpa [leerPorIdGo, recordsOf, lineRecord] using ih ht
    | parsed j =>
      cases hp : parseLineOut j with
      | some p =>
        have hraw := parse_id_raw hp
        simp only [leerPorIdGo, hraw, Except.toOption, Option.some_bind, pyInt,
          hp]
        by_cases heq : p.id = pid
        · simp [if_pos heq, recordsOf, lineRecord, hp, List.find?, heq]
        · have hbeq : (p.id == pid) = false := by
            simpa using heq
          simp only [if_neg heq]
          rw [ih ht]
          simp [recordsOf, lineRecord, hp, List.find?, hbeq]
      | none =>
        cases hA : ((pyGet j "id" (.int (-1))).toOption.bind fun v => (pyInt v).toOption) with
        | none =>
          simp only [leerPorIdGo, hA]
          simpa [recordsOf, lineRecord, hp] using ih ht
        | some n =>
          simp only [leerPorIdGo, hA]
          by_cases hn : n = pid
          · simp only [if_pos hn, hp]
            simpa [recordsOf, lineRecord, hp] using ih ht
          · simp only [if_neg hn]
            simpa [recordsOf, lineRecord, hp] using ih ht

/-- C5 (amended): for a log all of whose lines decode as UTF-8, `_leer_por_id`
returns the first well-formed record whose id equals the requested one, and
the not-found signal exactly when the log is absent or no well-formed line
matches; `obtener_producto` maps that signal to the 404 response. -/
theorem c5_read_by_id_first_match (pid : Int) (ls : List Line)
    (h : decodable ls = true) :
    leerPorId pid (some ls) = .ok ((recordsOf ls).find? fun p => p.id == pid) ∧
    leerPorId pid none = .ok none ∧
    obtenerProducto pid (some ls) =
      .ok (match (recordsOf ls).find? fun p => p.id == pid with
           | some p => ApiOut.ok p
           | none => ApiOut.notFound) ∧
    obtenerProducto pid none = .ok ApiOut.notFound := by
  have h1 : leerPorId pid (some ls) =
      .ok ((recordsOf ls).find? fun p => p.id == pid) := leerPorIdGo_eq pid ls h
  refine ⟨h1, rfl, ?_, rfl⟩
  rw [obtenerProducto, h1]
  cases (recordsOf ls).find? fun p => p.id == pid <;> rfl

/-- C5 counterexample: on a log whose first line has invalid UTF-8 bytes,
`_leer_por_id` raises `UnicodeDecodeError` — returning neither a record nor
the not-found signal — although a well-formed record with the requested id
(second conjunct) sits right after the corrupt line. -/
theorem c5_counterexample_undecodable_line :
    leerPorId 3 (some [Line.badEncoding,
        Line.parsed (JVal.obj
          [("nombre", JVal.str "Mouse"), ("categoria", JVal.null),
           ("precio", JVal.float 10), ("stock", JVal.int 2),
           ("descripcion", JVal.null), ("id", JVal.int 3),
           ("creado_en", JVal.str "2023-11-20T10:20:30")])]) =
      .error .unicodeDecodeError ∧
    parseLineOut (JVal.obj
          [("nombre", JVal.str "Mouse"), ("categoria", JVal.null),
           ("precio", JVal.float 10), ("stock", JVal.int 2),
           ("descripcion", JVal.null), ("id", JVal.int 3),
           ("creado_en", JVal.str "2023-11-20T10:20:30")]) =
      some ⟨⟨"Mouse", none, 10, 2, none⟩, 3, ⟨2023, 11, 20, 10, 20, 30, 0⟩⟩ ∧
    obtenerProducto 3 (some [Line.badEncoding,
        Line.parsed (JVal.obj
          [("nombre", JVal.str "Mouse"), ("categoria", JVal.null),
           ("precio", JVal.float 10), ("stock", JVal.int 2),
           ("descripcion", JVal.null), ("id", JVal.int 3),
           ("creado_en", JVal.str "2023-11-20T10:20:30")])]) =
      .error .unicodeDecodeError :=
  ⟨rfl, by decide, rfl⟩

/-- Witness for C5: a concrete decodable log on which `_leer_por_id` finds
the record with id 2 behind a malformed (but decodable) line. -/
theorem c5_read_by_id_first_match_witness :
    leerPorId 2 (some [Line.invalid,
        Line.parsed (JVal.obj
          [("nombre", JVal.str "Cable"), ("categoria", JVal.null),
           ("precio", JVal.float 3), ("stock", JVal.int 7),
           ("descripcion", JVal.null), ("id", JVal.int 2),
           ("creado_en", JVal.str "2022-06-07T08:09:10")])]) =
      .ok ((recordsOf [Line.invalid,
        Line.parsed (JVal.obj
          [("nombre", JVal.str "Cable"), ("categoria", JVal.null),
           ("precio", JVal.float 3), ("stock", JVal.int 7),
           ("descripcion", JVal.null), ("id", JVal.int 2),
           ("creado_en", JVal.str "2022-06-07T08:09:10")])]).find?
        fun p => p.id == 2) ∧
    leerPorId 2 none = .ok none ∧
    obtenerProducto 2 (some [Line.invalid,
        Line.parsed (JVal.obj
          [("nombre", JVal.str "Cable"), ("categoria", JVal.null),
           ("precio", JVal.float 3), ("stock", JVal.int 7),
           ("descripcion", JVal.null), ("id", JVal.int 2),
           ("creado_en", JVal.str "2022-06-07T08:09:10")])]) =
      .ok (match (recordsOf [Line.invalid,
        Line.parsed (JVal.obj
          [("nombre", JVal.str "Cable"), ("categoria", JVal.null),
           ("precio", JVal.float 3), ("stock", JVal.int 7),
           ("descripcion", JVal.null), ("id", JVal.int 2),
           ("creado_en", JVal.str "2022-06-07T08:09:10")])]).find?
          fun p => p.id == 2 with
        | some p => ApiOut.ok p
        | none => ApiOut.notFound) ∧
    obtenerProducto 2 none = .ok ApiOut.notFound :=
  c5_read_by_id_first_match 2 _ (by decide)

theorem runCreates_ids_gt (reqs : List (ProductoIn × PyDateTime × WriteOutcome)) :
    ∀ (s : AppState) (p : ProductoOut),
      Except.ok p ∈ (runCreates s reqs).2 → s.ultimoId < p.id := by
  induction reqs with
  | nil =>
    intro s p h
    simp [runCreates] at h
  | cons a rest ih =>
    intro s p h
    obtain ⟨inp, now, w⟩ := a
    simp only [runCreates, List.mem_cons] at h
    rcases h with h | h
    · cases w <;> simp only [crearProducto, guardarProducto] at h
      · rw [Except.ok.injEq] at h
        subst h
        simp [mkOut]
      · exact absurd h (by simp)
      · exact absurd h (by simp)
    · have hrec := ih (crearProducto s inp now w).1 p h
      have hctr : (crearProducto s inp now w).1.ultimoId = s.ultimoId + 1 := by
        cases w <;> rfl
      omega

/-- C7: when a storage write inside create fails, the error propagates to
that caller unchanged (no retry), the incremented counter is not rolled
back, and the consumed identifier `ultimo_id + 1` is never issued by any
later create in the same process — a permanent gap. -/
theorem c7_write_failure_consumes_id (s : AppState) (inp : ProductoIn)
    (now : PyDateTime) :
    ((crearProducto s inp now .txtFail).2 = .error .osError ∧
      (crearProducto s inp now .txtFail).1.ultimoId = s.ultimoId + 1) ∧
    ((crearProducto s inp now .jsonlFail).2 = .error .osError ∧
      (crearProducto s inp now .jsonlFail).1.ultimoId = s.ultimoId + 1) ∧
    (∀ (reqs : List (ProductoIn × PyDateTime × WriteOutcome)) (p : ProductoOut),
      Except.ok p ∈ (runCreates (crearProducto s inp now .txtFail).1 reqs).2 →
        s.ultimoId + 1 < p.id) ∧
    ∀ (reqs : List (ProductoIn × PyDateTime × WriteOutcome)) (p : ProductoOut),
      Except.ok p ∈ (runCreates (crearProducto s inp now .jsonlFail).1 reqs).2 →
        s.ultimoId + 1 < p.id := by
  refine ⟨⟨rfl, rfl⟩, ⟨rfl, rfl⟩, ?_, ?_⟩
  · intro reqs p h
    have h1 := runCreates_ids_gt reqs (crearProducto s inp now .txtFail).1 p h
    have h2 : (crearProducto s inp now .txtFail).1.ultimoId = s.ultimoId + 1 := rfl
    omega
  · intro reqs p h
    have h1 := runCreates_ids_gt reqs (crearProducto s inp now .jsonlFail).1 p h
    have h2 : (crearProducto s inp now .jsonlFail).1.ultimoId = s.ultimoId + 1 := rfl
    omega

theorem recordsOf_ids_find?_none {ls : List Line} {i : Int}
    (hfresh : ∀ q ∈ recordsOf ls, q.id ≠ i) :
    (recordsOf ls).find? (fun p => p.id == i) = none := by
  rw [List.find?_eq_none]
  intro q hq
  simpa using hfresh q hq

/-- C10: `_guardar_producto` writes the text row before the JSONL line, so a
failing JSONL write leaves the text log with a row for the record while the
machine-readable log is unchanged; since `list()` and `get` read only the
machine-readable log, the phantom record is invisible to every read
operation. -/
theorem c10_partial_append_invisible_to_reads (s : AppState) (inp : ProductoIn)
    (now : PyDateTime) :
    (crearProducto s inp now .jsonlFail).1.text =
      s.text ++ toTextLine (mkOut inp (s.ultimoId + 1) now) ∧
    (crearProducto s inp now .jsonlFail).1.jsonl = s.jsonl ∧
    (crearProducto s inp now .txtFail).1.text = s.text ∧
    (crearProducto s inp now .txtFail).1.jsonl = s.jsonl ∧
    leerTodos (crearProducto s inp now .jsonlFail).1.jsonl = leerTodos s.jsonl ∧
    (∀ i : Int, leerPorId i (crearProducto s inp now .jsonlFail).1.jsonl =
      leerPorId i s.jsonl) ∧
    ∀ ls : List Line, s.jsonl = some ls → decodable ls = true →
      (∀ q ∈ recordsOf ls, q.id ≠ s.ultimoId + 1) →
      mkOut inp (s.ultimoId + 1) now ∉ recordsOf ls ∧
      leerTodos (crearProducto s inp now .jsonlFail).1.jsonl = .ok (recordsOf ls) ∧
      leerPorId (s.ultimoId + 1) (crearProducto s inp now .jsonlFail).1.jsonl =
        .ok none := by
  refine ⟨rfl, rfl, rfl, rfl, rfl, fun i => rfl, ?_⟩
  intro ls hls hdec hfresh
  have hjs : (crearProducto s inp now .jsonlFail).1.jsonl = some ls := by
    rw [show (crearProducto s inp now .jsonlFail).1.jsonl = s.jsonl from rfl, hls]
  refine ⟨?_, ?_, ?_⟩
  · intro hmem
    exact hfresh _ hmem rfl
  · rw [hjs]
    exact leerTodos_eq ls hdec
  · rw [hjs]
    rw [show leerPorId (s.ultimoId + 1) (some ls) =
          leerPorIdGo (s.ultimoId + 1) ls from rfl]
    rw [leerPorIdGo_eq (s.ultimoId + 1) ls hdec,
      recordsOf_ids_find?_none hfresh]

/-- Witness for C7 at a concrete state: the failed create consumes id 1 and
the next successful create returns id 2. -/
theorem c7_write_failure_consumes_id_witness :
    (crearProducto ⟨none, headerChars, 0⟩
        ⟨"Laptop", none, 100, 1, none⟩ ⟨2021, 1, 2, 3, 4, 5, 6⟩ .txtFail).2 =
      .error .osError ∧
    (crearProducto ⟨none, headerChars, 0⟩
        ⟨"Laptop", none, 100, 1, none⟩ ⟨2021, 1, 2, 3, 4, 5, 6⟩ .jsonlFail).1.ultimoId =
      (AppState.mk none headerChars 0).ultimoId + 1 ∧
    (AppState.mk none headerChars 0).ultimoId + 1 <
      (mkOut ⟨"Laptop", none, 100, 1, none⟩ 2 ⟨2021, 1, 2, 3, 4, 5, 6⟩).id := by
  obtain ⟨⟨h1, _⟩, ⟨_, h4⟩, _, h6⟩ :=
    c7_write_failure_consumes_id ⟨none, headerChars, 0⟩
      ⟨"Laptop", none, 100, 1, none⟩ ⟨2021, 1, 2, 3, 4, 5, 6⟩
  refine ⟨h1, h4, ?_⟩
  refine h6 [(⟨"Laptop", none, 100, 1, none⟩, ⟨2021, 1, 2, 3, 4, 5, 6⟩, .ok)]
    (mkOut ⟨"Laptop", none, 100, 1, none⟩ 2 ⟨2021, 1, 2, 3, 4, 5, 6⟩) ?_
  exact List.mem_singleton.mpr rfl

/-- Witness for C10 at a concrete state holding one unrelated record with
id 1 and counter 5: the failed append leaves the JSONL log unchanged and id
6 is invisible to reads. -/
theorem c10_partial_append_invisible_to_reads_witness :
    (crearProducto ⟨some [Line.parsed (JVal.obj
          [("nombre", JVal.str "Old"), ("categoria", JVal.null),
           ("precio", JVal.float 2), ("stock", JVal.int 1),
           ("descripcion", JVal.null), ("id", JVal.int 1),
           ("creado_en", JVal.str "2020-01-01T00:00:00")])], headerChars, 5⟩
        ⟨"Nuevo", none, 9, 0, none⟩ ⟨2021, 2, 3, 4, 5, 6, 0⟩ .jsonlFail).1.jsonl =
      (AppState.mk (some [Line.parsed (JVal.obj
          [("nombre", JVal.str "Old"), ("categoria", JVal.null),
           ("precio", JVal.float 2), ("stock", JVal.int 1),
           ("descripcion", JVal.null), ("id", JVal.int 1),
           ("creado_en", JVal.str "2020-01-01T00:00:00")])]) headerChars 5).jsonl ∧
    (mkOut ⟨"Nuevo", none, 9, 0, none⟩
        ((AppState.mk (some [Line.parsed (JVal.obj
          [("nombre", JVal.str "Old"), ("categoria", JVal.null),
           ("precio", JVal.float 2), ("stock", JVal.int 1),
           ("descripcion", JVal.null), ("id", JVal.int 1),
           ("creado_en", JVal.str "2020-01-01T00:00:00")])]) headerChars 5).ultimoId + 1)
        ⟨2021, 2, 3, 4, 5, 6, 0⟩) ∉
      recordsOf [Line.parsed (JVal.obj
          [("nombre", JVal.str "Old"), ("categoria", JVal.null),
           ("precio", JVal.float 2), ("stock", JVal.int 1),
           ("descripcion", JVal.null), ("id", JVal.int 1),
           ("creado_en", JVal.str "2020-01-01T00:00:00")])] ∧
    leerPorId ((AppState.mk (some [Line.parsed (JVal.obj
          [("nombre", JVal.str "Old"), ("categoria", JVal.null),
           ("precio", JVal.float 2), ("stock", JVal.int 1),
           ("descripcion", JVal.null), ("id", JVal.int 1),
           ("creado_en", JVal.str "2020-01-01T00:00:00")])]) headerChars 5).ultimoId + 1)
      (crearProducto ⟨some [Line.parsed (JVal.obj
          [("nombre", JVal.str "Old"), ("categoria", JVal.null),
           ("precio", JVal.float 2), ("stock", JVal.int 1),
           ("descripcion", JVal.null), ("id", JVal.int 1),
           ("creado_en", JVal.str "2020-01-01T00:00:00")])], headerChars, 5⟩
        ⟨"Nuevo", none, 9, 0, none⟩ ⟨2021, 2, 3, 4, 5, 6, 0⟩ .jsonlFail).1.jsonl =
      .ok none := by
  obtain ⟨_, h2, _, _, _, _, h7⟩ :=
    c10_partial_append_invisible_to_reads ⟨some [Line.parsed (JVal.obj
          [("nombre", JVal.str "Old"), ("categoria", JVal.null),
           ("precio", JVal.float 2), ("stock", JVal.int 1),
           ("descripcion", JVal.null), ("id", JVal.int 1),
           ("creado_en", JVal.str "2020-01-01T00:00:00")])], headerChars, 5⟩
      ⟨"Nuevo", none, 9, 0, none⟩ ⟨2021, 2, 3, 4, 5, 6, 0⟩
  obtain ⟨hnotin, _, hnone⟩ := h7 _ rfl (by decide) (by decide)
  exact ⟨h2, hnotin, hnone⟩

/-- Serialization round trip: dumping a record built from validated input to
its JSON line and re-validating it through the read path reproduces the
record exactly. -/
theorem parse_dump (inp : ProductoIn) (id : Int) (now : PyDateTime)
    (hv : validIn inp = true) (hw : wfDT now = true) :
    parseLineOut (dumpProduct (mkOut inp id now)) = some (mkOut inp id now) := by
  obtain ⟨nom, cat, pr, st, des⟩ := inp
  have hiso : fromIso (isoChars now) = .ok now := fromIso_isoChars now hw
  cases cat with
  | none =>
    cases des with
    | none =>
      simp only [validIn, Bool.and_eq_true, beq_iff_eq, decide_eq_true_eq,
        and_true, true_and, and_assoc] at hv
      obtain ⟨htrim, hlen2, hlen60, hpr, hst⟩ := hv
      simp [parseLineOut, dumpProduct, mkOut, optStrJ, parseCreadoEn, parseId,
        parseNombre, parseCategoria, parsePrecio, parseStock, parseDescripcion,
        jlookup, Except.toOption, hiso, htrim, hlen2, hlen60, hpr, hst]
    | some d =>
      simp only [validIn, Bool.and_eq_true, beq_iff_eq, decide_eq_true_eq,
        and_true, true_and, and_assoc] at hv
      obtain ⟨htrim, hlen2, hlen60, hpr, hst, hdes⟩ := hv
      simp [parseLineOut, dumpProduct, mkOut, optStrJ, parseCreadoEn, parseId,
        parseNombre, parseCategoria, parsePrecio, parseStock, parseDescripcion,
        jlookup, Except.toOption, hiso, htrim, hlen2, hlen60, hpr, hst, hdes]
  | some c =>
    cases des with
    | none =>
      simp only [validIn, Bool.and_eq_true, beq_iff_eq, decide_eq_true_eq,
        and_true, true_and, and_assoc] at hv
      obtain ⟨htrim, hlen2, hlen60, hc1, hc2, hpr, hst⟩ := hv
      simp [parseLineOut, dumpProduct, mkOut, optStrJ, parseCreadoEn, parseId,
        parseNombre, parseCategoria, parsePrecio, parseStock, parseDescripcion,
        jlookup, Except.toOption, hiso, htrim, hlen2, hlen60, hc1, hc2, hpr, hst]
    | some d =>
      simp only [validIn, Bool.and_eq_true, beq_iff_eq, decide_eq_true_eq,
        and_true, true_and, and_assoc] at hv
      obtain ⟨htrim, hlen2, hlen60, hc1, hc2, hpr, hst, hdes⟩ := hv
      simp [parseLineOut, dumpProduct, mkOut, optStrJ, parseCreadoEn, parseId,
        parseNombre, parseCategoria, parsePrecio, parseStock, parseDescripcion,
        jlookup, Except.toOption, hiso, htrim, hlen2, hlen60, hc1, hc2, hpr, hst,
        hdes]

/-- C8: from a fresh store, a create with validated input succeeds, returns
the record with server-assigned id 1 and timestamp `now` combined with the
supplied fields, and a subsequent `list()` returns exactly that one record —
the round trip through the machine-readable log preserves every field. -/
theorem c8_create_then_list_exactly_one (inp : ProductoIn) (now : PyDateTime)
    (hv : validIn inp = true) (hw : wfDT now = true) :
    (crearProducto (initState none) inp now .ok).2 = .ok (mkOut inp 1 now) ∧
    leerTodos (crearProducto (initState none) inp now .ok).1.jsonl =
      .ok [mkOut inp 1 now] := by
  have hp := parse_dump inp 1 now hv hw
  constructor
  · rfl
  · rw [show (crearProducto (initState none) inp now .ok).1.jsonl =
        some [Line.parsed (dumpProduct (mkOut inp 1 now))] from rfl]
    rw [show leerTodos (some [Line.parsed (dumpProduct (mkOut inp 1 now))]) =
        leerTodosGo [] [Line.parsed (dumpProduct (mkOut inp 1 now))] from rfl]
    simp [leerTodosGo, hp]

/-- Witness for C8: a concrete valid input and timestamp. -/
theorem c8_create_then_list_exactly_one_witness :
    (crearProducto (initState none) ⟨"Mouse Gamer", some "Tech", 25, 10,
        some "RGB"⟩ ⟨2024, 5, 6, 7, 8, 9, 0⟩ .ok).2 =
      .ok (mkOut ⟨"Mouse Gamer", some "Tech", 25, 10, some "RGB"⟩ 1
        ⟨2024, 5, 6, 7, 8, 9, 0⟩) ∧
    leerTodos (crearProducto (initState none) ⟨"Mouse Gamer", some "Tech", 25,
        10, some "RGB"⟩ ⟨2024, 5, 6, 7, 8, 9, 0⟩ .ok).1.jsonl =
      .ok [mkOut ⟨"Mouse Gamer", some "Tech", 25, 10, some "RGB"⟩ 1
        ⟨2024, 5, 6, 7, 8, 9, 0⟩] :=
  c8_create_then_list_exactly_one ⟨"Mouse Gamer", some "Tech", 25, 10, some "RGB"⟩
    ⟨2024, 5, 6, 7, 8, 9, 0⟩ (by decide) (by decide)

theorem filterMap_set_none (l : List TStatus) :
    ∀ (i : Nat) (a b : TStatus), l.get? i = some a → doneId a = none →
      doneId b = none → (l.set i b).filterMap doneId = l.filterMap doneId := by
  induction l with
  | nil => intro i a b h _ _; simp at h
  | cons x t ih =>
    intro i a b h ha hb
    cases i with
    | zero =>
      simp only [List.get?] at h
      rw [Option.some.injEq] at h
      subst h
      simp [List.filterMap_cons, ha, hb]
    | succ i =>
      simp only [List.get?] at h
      show (x :: t.set i b).filterMap doneId = (x :: t).filterMap doneId
      cases hx : doneId x with
      | none => simp only [List.filterMap_cons, hx, ih i a b h ha hb]
      | some y => simp only [List.filterMap_cons, hx, ih i a b h ha hb]

theorem filterMap_set_done (l : List TStatus) :
    ∀ (i : Nat) (a : TStatus) (x : Int), l.get? i = some a → doneId a = none →
      ((l.set i (.done x)).filterMap doneId).Perm (x :: l.filterMap doneId) := by
  induction l with
  | nil => intro i a x h _; simp at h
  | cons hd t ih =>
    intro i a x h ha
    cases i with
    | zero =>
      simp only [List.get?] at h
      rw [Option.some.injEq] at h
      subst h
      simp only [List.set_cons_zero, List.filterMap_cons, ha,
        show doneId (TStatus.done x) = some x from rfl]
      exact List.Perm.refl _
    | succ i =>
      simp only [List.get?] at h
      show ((hd :: t.set i (.done x)).filterMap doneId).Perm
        (x :: (hd :: t).filterMap doneId)
      cases hx : doneId hd with
      | none =>
        simp only [List.filterMap_cons, hx]
        exact ih i a x h ha
      | some y =>
        simp only [List.filterMap_cons, hx]
        exact ((ih i a x h ha).cons y).trans (List.Perm.swap x y _)

theorem intRange_snoc (k : Int) (n : Nat) :
    intRange k (n + 1) = intRange k n ++ [k + 1 + n] := by
  simp [intRange, List.range_succ]

theorem CInv_init (n : Nat) (k : Int) : CInv k n (initC n k) := by
  have hrep : ∀ m, (List.replicate m TStatus.pending).filterMap doneId = [] := by
    intro m
    induction m with
    | zero => rfl
    | succ m ih => simp [List.replicate_succ, List.filterMap_cons, doneId, ih]
  refine ⟨by simp [initC], ?_, ?_⟩
  · simp [initC, doneIds, hrep]
  · simp [initC, doneIds, hrep, intRange]

theorem CInv_step {k : Int} {n : Nat} {s s2 : CState} (hs : CStep s s2)
    (hinv : CInv k n s) : CInv k n s2 := by
  obtain ⟨hlen, hctr, hperm⟩ := hinv
  cases hs with
  | acquire i h hfree =>
    have hd : (s.tasks.set i .hasLock).filterMap doneId =
        s.tasks.filterMap doneId :=
      filterMap_set_none s.tasks i .pending .hasLock h rfl rfl
    exact ⟨by simp [List.length_set, hlen], by simpa [doneIds, hd] using hctr,
      by simpa [doneIds, hd] using hperm⟩
  | work i h =>
    have hd : ((s.tasks.set i (.done (s.counter + 1))).filterMap doneId).Perm
        ((s.counter + 1) :: s.tasks.filterMap doneId) :=
      filterMap_set_done s.tasks i .hasLock (s.counter + 1) h rfl
    have hdlen : ((s.tasks.set i (.done (s.counter + 1))).filterMap doneId).length =
        (s.tasks.filterMap doneId).length + 1 := by
      rw [hd.length_eq]
      rfl
    rw [show doneIds s = s.tasks.filterMap doneId from rfl] at hctr hperm
    refine ⟨by simp [List.length_set, hlen], ?_, ?_⟩
    · show s.counter + 1 = k + _
      rw [show doneIds ⟨s.counter + 1, s.tasks.set i (.done (s.counter + 1))⟩ =
        (s.tasks.set i (.done (s.counter + 1))).filterMap doneId from rfl]
      rw [hdlen]
      omega
    · rw [show doneIds ⟨s.counter + 1, s.tasks.set i (.done (s.counter + 1))⟩ =
        (s.tasks.set i (.done (s.counter + 1))).filterMap doneId from rfl]
      rw [hdlen]
      have hhead : s.counter + 1 = k + 1 + (s.tasks.filterMap doneId).length := by
        omega
      refine hd.trans ?_
      rw [intRange_snoc, hhead]
      exact (hperm.cons _).trans (List.perm_append_singleton _ _).symm

theorem CInv_steps {k : Int} {n : Nat} {s s2 : CState} (hs : CSteps s s2)
    (hinv : CInv k n s) : CInv k n s2 := by
  induction hs with
  | refl => exact hinv
  | tail _ hstep ih => exact CInv_step hstep ih

theorem filterMap_doneId_length (l : List TStatus)
    (h : (l.all fun t => (doneId t).isSome) = true) :
    (l.filterMap doneId).length = l.length := by
  induction l with
  | nil => rfl
  | cons hd t ih =>
    simp only [List.all_cons, Bool.and_eq_true] at h
    cases hx : doneId hd with
    | none => rw [hx] at h; simp at h
    | some y => simp [List.filterMap_cons, hx, ih h.2]

/-- C9: in any complete interleaving of `n` concurrent create tasks under
the exclusion gate (no crashes), the returned ids are a permutation of the
consecutive block `k+1, ..., k+n` — pairwise distinct, no value skipped —
and the counter ends at `k + n`. -/
theorem c9_concurrent_creates_distinct_sequential_ids (n : Nat) (k : Int)
    (s : CState) (hs : CSteps (initC n k) s) (hall : allDoneT s = true) :
    (doneIds s).Perm (intRange k n) ∧ (doneIds s).Nodup ∧
    s.counter = k + n := by
  obtain ⟨hlen, hctr, hperm⟩ := CInv_steps hs (CInv_init n k)
  have hdlen : (doneIds s).length = n := by
    rw [doneIds, filterMap_doneId_length s.tasks hall, hlen]
  rw [hdlen] at hperm hctr
  exact ⟨hperm, hperm.symm.nodup (intRange_nodup k n), by omega⟩

/-- Witness for C9: a complete schedule of two concurrent creates from
counter 0 — acquire/work of task 0 interleaved before task 1 — ends with ids
1 and 2. -/
theorem c9_concurrent_creates_distinct_sequential_ids_witness :
    (doneIds ⟨2, [.done 1, .done 2]⟩).Perm (intRange 0 2) ∧
    (doneIds ⟨2, [.done 1, .done 2]⟩).Nodup ∧
    (CState.mk 2 [.done 1, .done 2]).counter = 0 + (2 : Nat) := by
  have h1 : CStep (initC 2 0) ⟨0, [.hasLock, .pending]⟩ :=
    CStep.acquire _ 0 (by decide) (by decide)
  have h2 : CStep ⟨0, [.hasLock, .pending]⟩ ⟨1, [.done 1, .pending]⟩ :=
    CStep.work _ 0 (by decide)
  have h3 : CStep ⟨1, [.done 1, .pending]⟩ ⟨1, [.done 1, .hasLock]⟩ :=
    CStep.acquire _ 1 (by decide) (by decide)
  have h4 : CStep ⟨1, [.done 1, .hasLock]⟩ ⟨2, [.done 1, .done 2]⟩ :=
    CStep.work _ 1 (by decide)
  exact c9_concurrent_creates_distinct_sequential_ids 2 0 ⟨2, [.done 1, .done 2]⟩
    ((((CSteps.refl _).tail h1).tail h2).tail h3 |>.tail h4) (by decide)
